import Mathlib

/-!
Verification of the `nostr-wot-sdk` TypeScript sources against their
natural-language specification.

Modelling conventions:
* JS strings are modelled as `List Char`.
* The chunk size and loop index of `chunk` are modelled as `Int`, since the
  loop can be driven with a non-positive size and the index dynamics then
  need signed arithmetic; array contents stay parametric.
* Asynchronous control flow is modelled by explicit environment records that
  fix the resolution value of each awaited operation, together with explicit
  suspension-point indices; JS is single threaded, so other code can run
  only at those suspension points.
-/

namespace NostrWot

/-! ### utils.ts -/

/-- Character class of the regex `[0-9a-f]` under the `i` flag, as used by
`isValidPubkey` (utils.ts line 20). -/
def isHexChar (c : Char) : Bool :=
  decide (('0' ≤ c ∧ c ≤ '9') ∨ ('a' ≤ c ∧ c ≤ 'f') ∨ ('A' ≤ c ∧ c ≤ 'F'))

/-- Embedding of `isValidPubkey` (utils.ts 19-21): the anchored regex
`/^[0-9a-f]{64}$/i.test(pubkey)` matches exactly the strings of length 64
all of whose characters lie in the class (in JS, `$` without the `m` flag
matches only at the very end of the input). -/
def isValidPubkey (s : List Char) : Bool :=
  s.length == 64 && s.all isHexChar

/-- Restatement of the spec sentence for comparison with `isValidPubkey`:
exactly 64 hexadecimal characters, digits or letters a-f in either case. -/
def isValidPubkeySpec (s : List Char) : Prop :=
  s.length = 64 ∧
    ∀ c ∈ s, ('0' ≤ c ∧ c ≤ '9') ∨ ('a' ≤ c ∧ c ≤ 'f') ∨ ('A' ≤ c ∧ c ≤ 'F')

/-- Embedding of `normalizePubkey` (utils.ts 43-45): `pubkey.toLowerCase()`.
On the basic-latin range, `String.prototype.toLowerCase` maps each of
`A`-`Z` (code points 65-90) to the character 32 code points higher and
fixes every other character, which is exactly core `Char.toLower`. -/
def normalizePubkey (s : List Char) : List Char :=
  s.map Char.toLower

/-- ASCII upper-case test (code points 65-90), used to state that the output
of `normalizePubkey` carries no upper-case character. -/
def isUpperAscii (c : Char) : Bool :=
  decide (65 ≤ c.toNat ∧ c.toNat ≤ 90)

/-- Index normalisation of `Array.prototype.slice`: a negative index counts
from the end of the array (clamped at 0), a non-negative one is clamped at
the length. -/
def sliceBound (n : Nat) (x : Int) : Nat :=
  if x < 0 then n - (-x).toNat else min x.toNat n

/-- Embedding of `array.slice(start, stop)` on lists. -/
def jsSlice (arr : List α) (start stop : Int) : List α :=
  (arr.drop (sliceBound arr.length start)).take
    (sliceBound arr.length stop - sliceBound arr.length start)

/-- Fuelled run of the loop of `chunk` (utils.ts 79-85):
`for (let i = 0; i < array.length; i += size) chunks.push(array.slice(i, i + size))`.
A `none` result means the fuel was exhausted before the loop exited. -/
def chunkLoop (arr : List α) (size : Int) : Nat → Int → List (List α) → Option (List (List α))
  | 0, _, _ => none
  | fuel + 1, i, acc =>
    if i < (arr.length : Int) then
      chunkLoop arr size fuel (i + size) (acc ++ [jsSlice arr i (i + size)])
    else
      some acc

/-- `chunk array size`, run with fuel `array.length + 1`; the termination
theorem for claim C9 shows this fuel suffices whenever `1 ≤ size`, and that
no amount of fuel suffices when `size ≤ 0` and the array is non-empty. -/
def chunk (arr : List α) (size : Int) : Option (List (List α)) :=
  chunkLoop arr size (arr.length + 1) 0 []

/-- Value of the loop index `i` of `chunk` after `k` iterations
(`i` starts at 0 and each iteration executes `i += size`). -/
def chunkIdx (size : Int) : Nat → Int
  | 0 => 0
  | k + 1 => chunkIdx size k + size

/-- Modelled from the spec: the batch orchestration of section 4.5 lives in
`wot.ts`, which is absent from the reviewed sources. Per the spec, the input
is partitioned into fixed-size chunks, one request is issued per chunk, each
target inside a chunk yields exactly one result entry (success, failure and
unreachable alike), and the chunk results are concatenated in input order.
`f` gives the per-target result entry. -/
def batchResults (targets : List α) (size : Int) (f : α → β) : Option (List β) :=
  (chunk targets size).map (fun cs => (cs.map (List.map f)).flatten)

/-! ### Helper lemmas about characters -/

/-- Packing a small code point and reading it back is the identity. -/
theorem toNat_charOfNat_of_lt {n : Nat} (h : n < 55296) : (Char.ofNat n).toNat = n := by
  have hv : n.isValidChar := Or.inl h
  rw [Char.ofNat, dif_pos hv]
  rfl

/-- Code point of `Char.toLower`. -/
theorem toNat_toLower (c : Char) :
    (Char.toLower c).toNat =
      if 65 ≤ c.toNat ∧ c.toNat ≤ 90 then c.toNat + 32 else c.toNat := by
  by_cases h : 65 ≤ c.toNat ∧ c.toNat ≤ 90
  · rw [if_pos h]
    show (if c.toNat ≥ 65 ∧ c.toNat ≤ 90 then Char.ofNat (c.toNat + 32) else c).toNat = _
    rw [if_pos h]
    exact toNat_charOfNat_of_lt (by omega)
  · rw [if_neg h]
    show (if c.toNat ≥ 65 ∧ c.toNat ≤ 90 then Char.ofNat (c.toNat + 32) else c).toNat = _
    rw [if_neg h]

/-- Lowercasing a character twice is the same as doing it once. -/
theorem toLower_toLower (c : Char) : Char.toLower (Char.toLower c) = Char.toLower c := by
  by_cases h : 65 ≤ c.toNat ∧ c.toNat ≤ 90
  · have h1 : (Char.toLower c).toNat = c.toNat + 32 := by rw [toNat_toLower, if_pos h]
    show (if (Char.toLower c).toNat ≥ 65 ∧ (Char.toLower c).toNat ≤ 90 then
        Char.ofNat ((Char.toLower c).toNat + 32) else Char.toLower c) = Char.toLower c
    rw [if_neg (by omega)]
  · have hc : Char.toLower c = c := by
      show (if c.toNat ≥ 65 ∧ c.toNat ≤ 90 then Char.ofNat (c.toNat + 32) else c) = c
      rw [if_neg h]
    rw [hc]
    exact hc

/-- Lowercasing never outputs an ASCII upper-case character. -/
theorem isUpperAscii_toLower (c : Char) : isUpperAscii (Char.toLower c) = false := by
  rw [isUpperAscii, decide_eq_false_iff_not]
  rw [toNat_toLower]
  by_cases h : 65 ≤ c.toNat ∧ c.toNat ≤ 90
  · rw [if_pos h]; omega
  · rw [if_neg h]; omega

/-! ### Helper lemmas about `chunk` -/

/-- One loop iteration slices off exactly the next `size` elements: the
slice taken at a valid index, followed by the rest of the array from
`i + size` on, is the rest of the array from `i` on. -/
theorem jsSlice_step (arr : List α) (i size : Int) (hi : 0 ≤ i) (hsz : 1 ≤ size)
    (hlt : i < (arr.length : Int)) :
    jsSlice arr i (i + size) ++ arr.drop (i + size).toNat = arr.drop i.toNat := by
  have ha : i.toNat < arr.length := by omega
  have hiadd : (i + size).toNat = i.toNat + size.toNat := Int.toNat_add hi (by omega)
  have hb1 : sliceBound arr.length i = i.toNat := by
    rw [sliceBound, if_neg (by omega)]
    omega
  have hb2 : sliceBound arr.length (i + size) = min (i.toNat + size.toNat) arr.length := by
    rw [sliceBound, if_neg (by omega)]
    rw [hiadd]
  rw [jsSlice, hb1, hb2, hiadd, ← List.drop_drop]
  set l' := arr.drop i.toNat with hl'
  have hlen : l'.length = arr.length - i.toNat := by rw [hl', List.length_drop]
  have hmin : min (i.toNat + size.toNat) arr.length - i.toNat = min size.toNat l'.length := by
    omega
  rw [hmin]
  by_cases hble : size.toNat ≤ l'.length
  · rw [min_eq_left hble, List.take_append_drop]
  · rw [min_eq_right (by omega)]
    rw [List.take_length, List.drop_eq_nil_iff.mpr (by omega), List.append_nil]

/-- Running the loop of `chunk` from a non-negative index with enough fuel
appends chunks whose concatenation is exactly the rest of the array. -/
theorem chunkLoop_flatten (arr : List α) (size : Int) (hsz : 1 ≤ size) :
    ∀ (fuel : Nat) (i : Int) (acc : List (List α)), 0 ≤ i → 1 ≤ fuel →
      (arr.length : Int) + 1 ≤ i + fuel →
      ∃ cs, chunkLoop arr size fuel i acc = some (acc ++ cs) ∧
        cs.flatten = arr.drop i.toNat := by
  intro fuel
  induction fuel with
  | zero => intro i acc _ hfuel _; omega
  | succ fuel ih =>
    intro i acc hi _ hfuel
    by_cases hlt : i < (arr.length : Int)
    · rw [chunkLoop, if_pos hlt]
      obtain ⟨cs, hrun, hflat⟩ := ih (i + size) (acc ++ [jsSlice arr i (i + size)])
        (by omega) (by omega) (by omega)
      refine ⟨jsSlice arr i (i + size) :: cs, ?_, ?_⟩
      · rw [hrun, List.append_assoc]
        rfl
      · rw [List.flatten_cons, hflat, jsSlice_step arr i size hi hsz hlt]
    · rw [chunkLoop, if_neg hlt]
      refine ⟨[], by rw [List.append_nil], ?_⟩
      rw [List.flatten_nil, Eq.comm, List.drop_eq_nil_iff]
      omega

/-! ### Trust score (section 4.4 of the spec) -/

/-- Configuration `ScoringConfig` (types.ts 4-22); `distanceWeights` is a
`Record<number, number>`, modelled as a partial map from hop counts, and the
numeric values are modelled as exact rationals. -/
structure ScoringConfig where
  distanceWeights : Nat → Option ℚ
  mutualBonus : ℚ
  pathBonus : ℚ
  maxPathBonus : ℚ

/-- Clamping of a value into `[lo, hi]`. -/
def clamp (x lo hi : ℚ) : ℚ := max lo (min hi x)

/-- Modelled from the spec: the trust-score computation of section 4.4 lives
in `wot.ts`, which is absent from the reviewed sources. Per the spec:
`base = distanceWeights[hops]` (0 if the hop count is undefined in the map),
mutual bonus if `mutual`, path bonus `min(maxPathBonus, pathBonus*(paths-1))`,
all clamped into `[0,1]`; an unreachable target (`hops` null/absent) scores 0
without evaluating the formula. -/
def trustScore (cfg : ScoringConfig) (hops : Option Nat) (paths : Nat) (mutualFollow : Bool) : ℚ :=
  match hops with
  | none => 0
  | some h =>
    clamp ((cfg.distanceWeights h).getD 0
      + (if mutualFollow then cfg.mutualBonus else 0)
      + min cfg.maxPathBonus (cfg.pathBonus * ((paths : ℚ) - 1))) 0 1

/-- The concrete configuration named by claim C4:
weights `{1: 0.9, 2: 0.6, 3: 0.3}`, mutual bonus `0.1`, path bonus `0.05`,
maximum path bonus `0.15`. -/
def exampleScoringConfig : ScoringConfig where
  distanceWeights := fun h =>
    if h = 1 then some (9/10) else if h = 2 then some (6/10)
    else if h = 3 then some (3/10) else none
  mutualBonus := 1/10
  pathBonus := 1/20
  maxPathBonus := 3/20

/-! ### Extension connector (extension.ts 191-332)

The connector's `doConnect` is an async method whose effects on the
connector are a sequence of `setState` calls, each of which overwrites the
`state`, `extension` and `error` fields at once and then notifies the
subscribers. JS is single threaded, so a competing call can run only at the
suspension points of `doConnect` (its two awaits) or after it resolved. The
environment record below fixes the branch data of one `doConnect` run: host
presence, a pre-installed handle, and the resolution values of the two
awaited handshakes. `connectExtension` resolves only with a handle it found
to be present (extension.ts 111-116), so a successful resolution carries a
handle. -/

/-- Connection states (`ExtensionConnectionState`, extension.ts 11-17). -/
inductive ConnState
  | idle
  | checking
  | connecting
  | connected
  | notInstalled
  | error
deriving DecidableEq, Repr

/-- Snapshot `ExtensionConnectionResult` (extension.ts 22-26): the triple of
fields written by every `setState` and read by `getResult`. -/
structure ConnResult (Handle : Type) where
  state : ConnState
  extension : Option Handle
  errMsg : Option String
deriving DecidableEq, Repr

/-- Idle snapshot: the connector's fields right after construction
(extension.ts 192-194) and right after `reset` (extension.ts 325-331). -/
def idleResult (Handle : Type) : ConnResult Handle := ⟨.idle, none, none⟩

/-- Environment of one `doConnect` run: whether a `window` object exists,
the value of `win.nostr?.wot` at entry, and the resolution values of
`checkExtension` and `connectExtension`. -/
structure ConnEnv (Handle : Type) where
  inBrowser : Bool
  preinstalled : Option Handle
  checkResult : Bool
  connectResult : Except String Handle

/-- The successive `setState` assignments performed by one run of
`doConnect` (extension.ts 281-320), in order. Each entry is the full
`(state, extension, error)` triple passed to `setState`. -/
def doConnectAssigns (env : ConnEnv Handle) : List (ConnResult Handle) :=
  if env.inBrowser = false then [⟨.notInstalled, none, none⟩]
  else match env.preinstalled with
  | some e => [⟨.connected, some e, none⟩]
  | none =>
    ⟨.checking, none, none⟩ ::
      (if env.checkResult = false then [⟨.notInstalled, none, none⟩]
       else ⟨.connecting, none, none⟩ ::
         (match env.connectResult with
          | .ok e => [⟨.connected, some e, none⟩]
          | .error m => [⟨.error, none, some m⟩]))

/-- Result returned by `doConnect`: it returns `getResult()` after its last
`setState`, so the last assignment of the run. -/
def attemptResult (env : ConnEnv Handle) : ConnResult Handle :=
  (doConnectAssigns env).getLastD (idleResult Handle)

/-- Full connector state: the result fields plus whether
`connectionPromise` is non-null. -/
structure Connector (Handle : Type) where
  result : ConnResult Handle
  hasPending : Bool
deriving DecidableEq, Repr

/-- Connector right after construction (extension.ts 192-198). -/
def Connector.init (Handle : Type) : Connector Handle := ⟨idleResult Handle, false⟩

/-- `reset()` (extension.ts 325-331): forces `idle`, clears handle, error
and the pending-promise reference. -/
def resetConnector (_c : Connector Handle) : Connector Handle := ⟨idleResult Handle, false⟩

/-- Connector state at the `k`-th suspension point of a pending `doConnect`
run: the first `k` assignments have been applied (each overwrites all three
fields) and `connectionPromise` is still non-null, since `connect` clears it
only after the attempt resolved and the first caller resumed. `k` ranges
from 1 (after the synchronous part of `doConnect` ran up to its first
suspension) to the length of the run (attempt resolved, first caller not
yet resumed). -/
def stateAfterAssigns (env : ConnEnv Handle) (k : Nat) : Connector Handle :=
  ⟨((doConnectAssigns env).take k).getLastD (idleResult Handle), true⟩

/-- Outcome of the synchronous part of a `connect()` call
(extension.ts 264-279). -/
inductive ConnectAction (Handle : Type)
  | cached (r : ConnResult Handle)
  | joinPending
  | startNew
deriving DecidableEq, Repr

/-- Synchronous decision of `connect()` (extension.ts 264-279): return the
cached result when already connected with a handle, else adopt the pending
`connectionPromise` when one exists, else start a fresh `doConnect`. -/
def connectCall (c : Connector Handle) : ConnectAction Handle :=
  if c.result.state = .connected ∧ c.result.extension.isSome = true then .cached c.result
  else if c.hasPending = true then .joinPending
  else .startNew

/-- Result with which a second `connect()` call, issued at suspension point
`k` of a pending attempt, eventually settles. Adopting the pending promise
settles with the attempt's own result; `none` records that a fresh
`doConnect` (a second handshake) would have been started. -/
def secondCallResult (env : ConnEnv Handle) (k : Nat) : Option (ConnResult Handle) :=
  match connectCall (stateAfterAssigns env k) with
  | .cached r => some r
  | .joinPending => some (attemptResult env)
  | .startNew => none

/-- Connector state after `reset()` was called at suspension point `k` of a
pending attempt and the abandoned attempt then ran to completion: `reset`
does not stop the attempt, whose remaining `setState` calls still apply
(extension.ts 309-317 run after the awaits resume). `connectionPromise`
stays null: `reset` cleared it and the first caller re-clears it. -/
def stateAfterResetAndSettle (env : ConnEnv Handle) (k : Nat) : Connector Handle :=
  ⟨((doConnectAssigns env).drop k).getLastD (idleResult Handle), false⟩

/-- Invariant of claim C2: the stored handle is non-null exactly when the
state is `connected`. -/
def connInv (r : ConnResult Handle) : Prop :=
  r.extension.isSome = true ↔ r.state = .connected

/-! ### checkAndConnect (extension.ts 148-186)

The same environment record drives `checkAndConnect`; in addition the model
records which outbound event exchanges are dispatched: `checkExtension`
dispatches `nostr-wot-check` (it is reached only when no handle is
pre-installed, so its own short-circuit does not fire), and
`connectExtension` dispatches `nostr-wot-connect`. -/

/-- Outbound request exchanges of the handshake protocol. -/
inductive Exchange
  | check
  | connect
deriving DecidableEq, Repr

/-- Embedding of `checkAndConnect` (extension.ts 148-186) with
`options.autoConnect` made explicit; returns the
`ExtensionConnectionResult` together with the exchanges dispatched. -/
def checkAndConnect (autoConnect : Bool) (env : ConnEnv Handle) :
    ConnResult Handle × List Exchange :=
  if env.inBrowser = false then (⟨.notInstalled, none, none⟩, [])
  else match env.preinstalled with
  | some e => (⟨.connected, some e, none⟩, [])
  | none =>
    if env.checkResult = false then (⟨.notInstalled, none, none⟩, [.check])
    else if autoConnect = false then (⟨.idle, none, none⟩, [.check])
    else match env.connectResult with
      | .ok e => (⟨.connected, some e, none⟩, [.check, .connect])
      | .error m => (⟨.error, none, some m⟩, [.check, .connect])

/-! ### connectExtension event machine (extension.ts 91-143)

`connectExtension` attaches a `ready` and an `error` listener, dispatches
the `connect` request, and only then installs the timeout timer. DOM event
dispatch is synchronous: a listener of the `connect` request may deliver the
`ready` (or `error`) response during the dispatch itself, before the timer
exists. The machine below records listener attachment, timer lifecycle,
promise settlement, how many times the `cleanup` closure ran, and whether a
timer callback ran after the promise had already settled. -/

/-- Observable machine state of one `connectExtension` call. -/
structure CEState where
  readyAttached : Bool
  errorAttached : Bool
  timerInstalled : Bool
  timerCleared : Bool
  timerFired : Bool
  resolvedOk : Option Bool
  cleanupRuns : Nat
  lateTimerFire : Bool
deriving DecidableEq, Repr

/-- Events the host environment can deliver to a pending
`connectExtension`: the `ready` response (carrying whether the handle is
then readable from the host object), the `error` response, or expiry of the
installed timer. -/
inductive CEEvent
  | ready (handleFound : Bool)
  | errSig
  | timeout
deriving DecidableEq, Repr

/-- The `cleanup` closure (extension.ts 125-129): clear the timer (a no-op
when the timer variable is still unset) and detach both listeners. -/
def ceCleanup (s : CEState) : CEState :=
  { s with
    timerCleared := if s.timerInstalled then true else s.timerCleared
    readyAttached := false
    errorAttached := false
    cleanupRuns := s.cleanupRuns + 1 }

/-- Settling the promise: a second resolution or rejection is ignored. -/
def ceSettle (ok : Bool) (s : CEState) : CEState :=
  { s with resolvedOk := match s.resolvedOk with | none => some ok | some v => some v }

/-- One event delivery. A `ready`/`error` signal invokes its handler only
while the listener is attached (extension.ts 109-123); the timer callback
(extension.ts 138-141) runs only if the timer was installed and neither
cleared nor already expired, and it runs `cleanup` and rejects. -/
def ceStep (s : CEState) : CEEvent → CEState
  | .ready found =>
    if s.readyAttached = false then s
    else ceSettle found (ceCleanup s)
  | .errSig =>
    if s.errorAttached = false then s
    else ceSettle false (ceCleanup s)
  | .timeout =>
    if s.timerInstalled = false ∨ s.timerCleared = true ∨ s.timerFired = true then s
    else
      ceSettle false (ceCleanup { s with
        timerFired := true
        lateTimerFire := s.resolvedOk.isSome })

/-- A full run of `connectExtension` (extension.ts 91-143) in an
environment without a pre-installed handle: attach both listeners, dispatch
the `connect` request, during which the environment may already deliver
responses (`sync`), then install the timer, then deliver the remaining
events (`later`). -/
def runConnectExtension (sync later : List CEEvent) : CEState :=
  let s0 : CEState := ⟨true, true, false, false, false, none, 0, false⟩
  let s1 := sync.foldl ceStep s0
  let s2 := { s1 with timerInstalled := true }
  later.foldl ceStep s2

/-! ### Claim theorems -/

/-- C6: `isValidPubkey` returns true exactly on the strings of 64
hexadecimal characters (digits 0-9 and letters a-f in either case); in
particular it rejects the empty string, any length other than 64 (including
65), and any string containing a non-hex character. -/
theorem c6_isValidPubkey_iff :
    (∀ s : List Char, isValidPubkey s = true ↔ isValidPubkeySpec s)
    ∧ isValidPubkey [] = false
    ∧ isValidPubkey (List.replicate 64 'f') = true
    ∧ isValidPubkey (List.replicate 64 'A') = true
    ∧ isValidPubkey (List.replicate 65 'f') = false
    ∧ isValidPubkey (List.replicate 63 'f' ++ ['g']) = false := by
  refine ⟨fun s => ?_, by decide, by decide, by decide, by decide, by decide⟩
  simp [isValidPubkey, isValidPubkeySpec, isHexChar]

/-- Witness for C6 at a concrete 64-character string. -/
theorem c6_isValidPubkey_iff_witness : isValidPubkeySpec (List.replicate 64 'a') :=
  (c6_isValidPubkey_iff.1 (List.replicate 64 'a')).mp (by decide)

/-- C7: `normalizePubkey` is idempotent on every string, and its output
contains no (ASCII) upper-case character. -/
theorem c7_normalizePubkey_idempotent :
    (∀ s : List Char, normalizePubkey (normalizePubkey s) = normalizePubkey s)
    ∧ ∀ s : List Char, ∀ c ∈ normalizePubkey s, isUpperAscii c = false := by
  constructor
  · intro s
    rw [normalizePubkey, normalizePubkey, List.map_map]
    exact List.map_congr_left fun c _ => toLower_toLower c
  · intro s c hc
    rw [normalizePubkey] at hc
    obtain ⟨a, _, rfl⟩ := List.mem_map.mp hc
    exact isUpperAscii_toLower a

/-- Witness for C7 at a concrete string with an upper-case letter. -/
theorem c7_normalizePubkey_idempotent_witness :
    normalizePubkey (normalizePubkey ['A', 'b']) = normalizePubkey ['A', 'b']
    ∧ isUpperAscii 'a' = false :=
  ⟨c7_normalizePubkey_idempotent.1 ['A', 'b'],
   c7_normalizePubkey_idempotent.2 ['A', 'b'] 'a' (by decide)⟩

/-- C4: with weights `{1: 0.9, 2: 0.6, 3: 0.3}`, mutual bonus `0.1`, path
bonus `0.05` and maximum path bonus `0.15`, the distance result
`{hops: 2, paths: 4, mutual: true}` scores exactly
`clamp(0.6 + 0.1 + min(0.15, 0.05 * 3), 0, 1) = 0.85`; in general the score
of a reachable target is
`clamp(weights[hops] + mutualBonus? + min(maxPathBonus, pathBonus * (paths - 1)), 0, 1)`
(the first path carries no bonus) and an unreachable target scores 0. -/
theorem c4_trust_score_formula :
    trustScore exampleScoringConfig (some 2) 4 true = 0.85
    ∧ clamp (0.6 + 0.1 + min 0.15 (0.05 * 3) : ℚ) 0 1 = 0.85
    ∧ (∀ cfg : ScoringConfig, ∀ h paths : Nat, ∀ m : Bool,
        trustScore cfg (some h) paths m =
          clamp ((cfg.distanceWeights h).getD 0 + (if m then cfg.mutualBonus else 0)
            + min cfg.maxPathBonus (cfg.pathBonus * ((paths : ℚ) - 1))) 0 1)
    ∧ (∀ cfg : ScoringConfig, ∀ paths : Nat, ∀ m : Bool,
        trustScore cfg none paths m = 0) := by
  refine ⟨?_, ?_, fun cfg h paths m => rfl, fun cfg paths m => rfl⟩
  · rw [trustScore]
    norm_num [exampleScoringConfig, clamp]
  · norm_num [clamp]

/-- C8: concatenating, in order, the chunks that `chunk` produces for any
size at least 1 gives back exactly the input array, and therefore the
spec-modelled chunked batch keeps a one-to-one, order-preserving
correspondence between targets and result entries. -/
theorem c8_chunk_preserves_order {α : Type u} {β : Type v} (arr : List α) (size : Int)
    (f : α → β) (hsz : 1 ≤ size) :
    (∃ cs, chunk arr size = some cs ∧ cs.flatten = arr)
    ∧ batchResults arr size f = some (arr.map f) := by
  obtain ⟨cs, hrun, hflat⟩ :=
    chunkLoop_flatten arr size hsz (arr.length + 1) 0 [] le_rfl (by omega) (by omega)
  rw [List.nil_append] at hrun
  simp only [Int.toNat_zero, List.drop_zero] at hflat
  have hchunk : chunk arr size = some cs := hrun
  refine ⟨⟨cs, hchunk, hflat⟩, ?_⟩
  rw [batchResults, hchunk, Option.map_some']
  rw [← List.map_flatten, hflat]

/-- Witness for C8 on a concrete array and chunk size. -/
theorem c8_chunk_preserves_order_witness :
    (∃ cs, chunk [1, 2, 3] 2 = some cs ∧ cs.flatten = [1, 2, 3])
    ∧ batchResults [1, 2, 3] 2 Nat.succ = some ([1, 2, 3].map Nat.succ) :=
  c8_chunk_preserves_order [1, 2, 3] 2 Nat.succ (by decide)

/-- C9: the loop of `chunk` terminates for every size at least 1 (fuel
`length + 1` suffices), and the bound is necessary: with a non-positive
size and a non-empty array the loop index never advances towards the bound
(each iteration moves it down or keeps it), and no amount of fuel makes the
loop exit. -/
theorem c9_chunk_termination {α : Type u} (arr : List α) (size : Int) :
    (1 ≤ size → (chunk arr size).isSome = true)
    ∧ (arr ≠ [] → size ≤ 0 →
        (∀ fuel : Nat, ∀ i : Int, ∀ acc : List (List α), i ≤ 0 →
            chunkLoop arr size fuel i acc = none)
        ∧ ∀ k : Nat, chunkIdx size (k + 1) ≤ chunkIdx size k) := by
  constructor
  · intro hsz
    obtain ⟨cs, hrun, _⟩ :=
      chunkLoop_flatten arr size hsz (arr.length + 1) 0 [] le_rfl (by omega) (by omega)
    rw [chunk, hrun]
    rfl
  · intro hne hsz
    have hlen : 0 < arr.length := List.length_pos.mpr hne
    constructor
    · intro fuel
      induction fuel with
      | zero => intro i acc _; rfl
      | succ fuel ih =>
        intro i acc hi
        rw [chunkLoop, if_pos (by omega)]
        exact ih (i + size) _ (by omega)
    · intro k
      show chunkIdx size k + size ≤ chunkIdx size k
      omega

/-- Witness for C9: termination at size 1, divergence at size -1. -/
theorem c9_chunk_termination_witness :
    (chunk [5] 1).isSome = true ∧ chunkLoop [5] (-1) 4 0 [] = none
    ∧ chunkIdx (-1) 1 ≤ chunkIdx (-1) 0 :=
  ⟨(c9_chunk_termination [5] 1).1 (by norm_num),
   ((c9_chunk_termination [5] (-1)).2 (by simp) (by norm_num)).1 4 0 [] le_rfl,
   ((c9_chunk_termination [5] (-1)).2 (by simp) (by norm_num)).2 0⟩

/-- C2: after construction, after every `setState` performed by a
`doConnect` run (at every suspension point and at completion), and after
`reset`, the stored extension handle is non-null if and only if the state
is `connected`. -/
theorem c2_handle_iff_connected {Handle : Type} :
    connInv (Connector.init Handle).result
    ∧ (∀ c : Connector Handle, connInv (resetConnector c).result)
    ∧ ∀ env : ConnEnv Handle, ∀ k : Nat, k ≤ (doConnectAssigns env).length →
        connInv (stateAfterAssigns env k).result := by
  refine ⟨by simp [Connector.init, idleResult, connInv], fun c => by simp [resetConnector, idleResult, connInv], ?_⟩
  intro env k hk
  obtain ⟨ib, pre, ck, cr⟩ := env
  cases ib <;> cases pre <;> cases ck <;> cases cr <;>
    simp [doConnectAssigns] at hk <;>
    interval_cases k <;>
    simp [stateAfterAssigns, doConnectAssigns, idleResult, connInv,
      List.getLastD_cons, List.getLastD_nil]

/-- Witness for C2 at a concrete environment and suspension point. -/
theorem c2_handle_iff_connected_witness :
    connInv (stateAfterAssigns (⟨true, none, true, .ok 7⟩ : ConnEnv Nat) 3).result :=
  (@c2_handle_iff_connected Nat).2.2 ⟨true, none, true, .ok 7⟩ 3 (by decide)

/-- C1: a second `connect()` call issued at any suspension point of a
pending attempt (so before the first call has settled) never starts a
second `doConnect` — at most one handshake runs and the only
checking-to-final notification sequence emitted is the pending attempt's
own — and the second call settles with exactly the pending attempt's
result: it either adopts the identical pending promise, or, when the
attempt has already applied its final `connected` assignment, returns that
same final result from the cache. -/
theorem c1_connect_coalesces {Handle : Type} (env : ConnEnv Handle) (k : Nat)
    (hk1 : 1 ≤ k) (hk : k ≤ (doConnectAssigns env).length) :
    secondCallResult env k = some (attemptResult env)
    ∧ connectCall (stateAfterAssigns env k) ≠ .startNew := by
  obtain ⟨ib, pre, ck, cr⟩ := env
  cases ib <;> cases pre <;> cases ck <;> cases cr <;>
    simp [doConnectAssigns] at hk <;>
    interval_cases k <;>
    simp [secondCallResult, connectCall, stateAfterAssigns, attemptResult,
      doConnectAssigns, idleResult, List.getLastD_cons, List.getLastD_nil]

/-- Witness for C1: a second call during the connecting wait of a
successful attempt. -/
theorem c1_connect_coalesces_witness :
    secondCallResult (⟨true, none, true, .ok 7⟩ : ConnEnv Nat) 2
        = some (attemptResult ⟨true, none, true, .ok 7⟩)
    ∧ connectCall (stateAfterAssigns (⟨true, none, true, .ok 7⟩ : ConnEnv Nat) 2)
        ≠ .startNew :=
  c1_connect_coalesces ⟨true, none, true, .ok 7⟩ 2 (by decide) (by decide)

/-- C5 counterexample: reset during the checking wait of an attempt that
later succeeds. The claim says the settling handshake leaves the connector
state unchanged (idle, no handle); in the code, `doConnect` resumes and
calls `this.setState`, so the connector ends `connected` with the handle,
not idle. -/
theorem c5_reset_unchanged_counterexample :
    (stateAfterResetAndSettle (⟨true, none, true, .ok 7⟩ : ConnEnv Nat) 1).result
      = ⟨.connected, some 7, none⟩
    ∧ (stateAfterResetAndSettle (⟨true, none, true, .ok 7⟩ : ConnEnv Nat) 1).result
      ≠ idleResult Nat := by
  decide

/-- C5 amended: after `reset()` during an in-flight attempt the connector is
immediately idle with a null handle, no error and no pending-promise
reference, and it stays without a pending-promise reference; but the
abandoned attempt is not cancelled — when it settles, its remaining
`setState` calls overwrite the connector's observable state with the
attempt's own outcome. -/
theorem c5_reset_midflight {Handle : Type} (env : ConnEnv Handle) (k : Nat)
    (hk1 : 1 ≤ k) (hk : k < (doConnectAssigns env).length) :
    (resetConnector (stateAfterAssigns env k)).result = idleResult Handle
    ∧ (resetConnector (stateAfterAssigns env k)).hasPending = false
    ∧ (stateAfterResetAndSettle env k).result = attemptResult env
    ∧ (stateAfterResetAndSettle env k).hasPending = false := by
  refine ⟨rfl, rfl, ?_, rfl⟩
  obtain ⟨ib, pre, ck, cr⟩ := env
  cases ib <;> cases pre <;> cases ck <;> cases cr <;>
    simp [doConnectAssigns] at hk <;>
    first
      | omega
      | (interval_cases k <;>
          simp [stateAfterResetAndSettle, attemptResult, doConnectAssigns, idleResult,
            List.getLastD_cons, List.getLastD_nil])

/-- Witness for the amended C5 at a concrete environment and reset point. -/
theorem c5_reset_midflight_witness :
    (resetConnector (stateAfterAssigns (⟨true, none, true, .ok 5⟩ : ConnEnv Nat) 1)).result
      = idleResult Nat
    ∧ (resetConnector (stateAfterAssigns (⟨true, none, true, .ok 5⟩ : ConnEnv Nat) 1)).hasPending
      = false
    ∧ (stateAfterResetAndSettle (⟨true, none, true, .ok 5⟩ : ConnEnv Nat) 1).result
      = attemptResult ⟨true, none, true, .ok 5⟩
    ∧ (stateAfterResetAndSettle (⟨true, none, true, .ok 5⟩ : ConnEnv Nat) 1).hasPending
      = false :=
  c5_reset_midflight ⟨true, none, true, .ok 5⟩ 1 (by decide) (by decide)

/-- C10: `checkAndConnect` with `autoConnect = false` in a host environment
with no pre-installed handle and a succeeding presence check returns
`{state: idle, extension: null}` — not `connected` or `not-installed` — and
dispatches no `connect` exchange. -/
theorem c10_checkAndConnect_idle {Handle : Type} (env : ConnEnv Handle)
    (hib : env.inBrowser = true) (hpre : env.preinstalled = none)
    (hck : env.checkResult = true) :
    (checkAndConnect false env).1 = ⟨.idle, none, none⟩
    ∧ Exchange.connect ∉ (checkAndConnect false env).2 := by
  obtain ⟨ib, pre, ck, cr⟩ := env
  dsimp only at hib hpre hck
  subst hib
  subst hpre
  subst hck
  simp [checkAndConnect]

/-- Witness for C10 at a concrete environment. -/
theorem c10_checkAndConnect_idle_witness :
    (checkAndConnect false (⟨true, none, true, .ok 3⟩ : ConnEnv Nat)).1 = ⟨.idle, none, none⟩
    ∧ Exchange.connect ∉ (checkAndConnect false (⟨true, none, true, .ok 3⟩ : ConnEnv Nat)).2 :=
  c10_checkAndConnect_idle ⟨true, none, true, .ok 3⟩ rfl rfl rfl

/-- C3, evaluated at the failing interleaving: when the environment answers
the `connect` dispatch synchronously with `ready` — which DOM event
dispatch permits, since listeners run during the dispatch, before
extension.ts line 138 has installed the timer — the promise settles and
`cleanup` runs while the timer variable is still unset; the timer installed
afterwards is live, so its callback fires after settlement and runs
`cleanup` a second time (the late rejection itself is ignored by the
settled promise). When the response instead arrives after the timer is
installed, cleanup runs exactly once and no late timer fires. -/
theorem c3_timer_after_settle :
    (runConnectExtension [.ready true] [.timeout]).lateTimerFire = true
    ∧ (runConnectExtension [.ready true] [.timeout]).cleanupRuns = 2
    ∧ (runConnectExtension [.ready true] [.timeout]).resolvedOk = some true
    ∧ (runConnectExtension [] [.ready true, .timeout]).lateTimerFire = false
    ∧ (runConnectExtension [] [.ready true, .timeout]).cleanupRuns = 1 := by
  decide

end NostrWot
